import Mathlib

/-!
Verification of the knowledge-base store, relevance ranker and completion
gateway of a customer-support chatbot, via a shallow embedding of the
JavaScript source (KnowledgeBase class and GeminiService class) into Lean.

Strings are modelled as lists of characters; timestamps as natural
numbers; the filesystem seen by the store as an oracle from attempt
number to parsed file content, together with an explicit trace of
effects (reads, sleeps, quarantine copies, saves).
-/

namespace CustomAI

/-- Strings are modelled as lists of characters. -/
abbrev Str := List Char

/-- Whitespace characters recognised by the embedding (the characters the
JavaScript whitespace class matches on the ASCII range). -/
def isWsChar (c : Char) : Bool :=
  c = ' ' || c = '\t' || c = '\n' || c = '\r' || c = '\x0b' || c = '\x0c'

/-- Per-character case folding, as JavaScript toLowerCase. -/
def toLower (s : Str) : Str := s.map Char.toLower

/-- Does the first string start with the second? -/
def strStartsWith : Str → Str → Bool
  | _, [] => true
  | [], _ :: _ => false
  | c :: s, d :: t => c == d && strStartsWith s t

/-- JavaScript includes: the second string occurs inside the first. -/
def includes : Str → Str → Bool
  | [], sub => strStartsWith [] sub
  | c :: rest, sub => strStartsWith (c :: rest) sub || includes rest sub

/-- JavaScript trim: drop whitespace from both ends. -/
def trim (s : Str) : Str :=
  ((s.dropWhile isWsChar).reverse.dropWhile isWsChar).reverse

/-- Splitting on whitespace runs. The second argument is `some acc` while
accumulating the current chunk (in reverse) and `none` while inside a
whitespace run whose chunk boundary has already been emitted. -/
def splitWsAux : List Char → Option (List Char) → List (List Char)
  | [], some acc => [acc.reverse]
  | [], none => [[]]
  | c :: rest, some acc =>
    if isWsChar c then acc.reverse :: splitWsAux rest none
    else splitWsAux rest (some (c :: acc))
  | c :: rest, none =>
    if isWsChar c then splitWsAux rest none
    else splitWsAux rest (some [c])

/-- JavaScript split on a whitespace-run regular expression: consecutive
whitespace is one separator, and leading or trailing whitespace yields an
empty chunk at the corresponding end. -/
def splitWs (s : Str) : List Str := splitWsAux s (some [])

/-- A knowledge-base entry as stored in the backing file. -/
structure KnowledgeEntry where
  id : Str
  key : Str
  value : Str
  tags : List Str
  createdAt : Nat
  updatedAt : Nat
deriving DecidableEq

/-- Contribution of one (query word, key word) pair to the relevance
score: 10 when one is a substring of the other. -/
def wordPairScore (searchWord keyWord : Str) : Nat :=
  if includes keyWord searchWord || includes searchWord keyWord then 10 else 0

/-- KnowledgeBase.calculateRelevanceScore: the additive relevance score of
an entry against a (lowercased, trimmed) search term. -/
def calculateRelevanceScore (entry : KnowledgeEntry) (searchTerm : Str) : Nat :=
  let key := toLower entry.key
  let value := toLower entry.value
  let tags := entry.tags.map toLower
  let keyScore := if key = searchTerm then 100
    else if includes key searchTerm then 50 else 0
  let tagScore := if tags.contains searchTerm then 40 else 0
  let valueScore := if includes value searchTerm then 20 else 0
  let keyWords := splitWs key
  let searchWords := splitWs searchTerm
  let wordScore :=
    (searchWords.map (fun sw => (keyWords.map (fun kw => wordPairScore sw kw)).sum)).sum
  keyScore + tagScore + valueScore + wordScore

/-- The additive scoring formula as the specification words it: +100 for
an exact key match, else +50 for a key substring match; +40 if any tag
equals the query; +20 if the value contains the query; +10 for every
(query word, key word) pair where one is a substring of the other. -/
def specScore (entry : KnowledgeEntry) (query : Str) : Nat :=
  (if toLower entry.key = query then 100
   else if includes (toLower entry.key) query then 50 else 0)
  + (if (entry.tags.map toLower).contains query then 40 else 0)
  + (if includes (toLower entry.value) query then 20 else 0)
  + 10 * ((splitWs query).map (fun qw =>
      (splitWs (toLower entry.key)).countP
        (fun kw => includes kw qw || includes qw kw))).sum

theorem sum_wordPairScore (sw : Str) (l : List Str) :
    (l.map (fun kw => wordPairScore sw kw)).sum
      = 10 * l.countP (fun kw => includes kw sw || includes sw kw) := by
  induction l with
  | nil => simp
  | cons kw rest ih =>
    rw [List.map_cons, List.sum_cons, List.countP_cons, ih]
    simp only [wordPairScore, Bool.or_eq_true]
    by_cases h : includes kw sw = true ∨ includes sw kw = true
    · simp only [if_pos h]
      omega
    · simp only [if_neg h]
      omega

theorem sum_wordScore (sws kws : List Str) :
    (sws.map (fun sw => (kws.map (fun kw => wordPairScore sw kw)).sum)).sum
      = 10 * (sws.map (fun qw =>
          kws.countP (fun kw => includes kw qw || includes qw kw))).sum := by
  induction sws with
  | nil => simp
  | cons sw rest ih =>
    rw [List.map_cons, List.sum_cons, List.map_cons, List.sum_cons,
      sum_wordPairScore, ih, Nat.mul_add]

/-- C1: for every knowledge entry and every lowercased, trimmed non-empty
query, calculateRelevanceScore computes exactly the additive formula of
the specification: +100 for an exact key match, else +50 for a key
substring match, plus +40 for an exact tag match, plus +20 for a value
substring match, plus +10 per (query word, key word) pair where one is a
substring of the other — the word-overlap and tag/value bonuses stack on
top of the key branch (so key "Pricing" against query "pricing" scores
110, not 100). -/
theorem calculateRelevanceScore_eq_specScore (entry : KnowledgeEntry) (q : Str)
    (_hlow : toLower q = q) (_htrim : trim q = q) (_hne : q ≠ []) :
    calculateRelevanceScore entry q = specScore entry q := by
  simp only [calculateRelevanceScore, specScore, sum_wordScore]

/-- Witness for C1 at the entry with key "Pricing" and query "pricing":
the hypotheses hold and the score equals the spec formula (both are 110,
the 100-point key branch plus the 10-point word overlap). -/
theorem calculateRelevanceScore_eq_specScore_witness :
    toLower ("pricing".data) = "pricing".data
    ∧ trim ("pricing".data) = "pricing".data
    ∧ "pricing".data ≠ []
    ∧ calculateRelevanceScore
        ⟨"a1".data, "Pricing".data, "Our plans".data, [], 0, 0⟩ ("pricing".data)
      = specScore ⟨"a1".data, "Pricing".data, "Our plans".data, [], 0, 0⟩ ("pricing".data)
    ∧ calculateRelevanceScore
        ⟨"a1".data, "Pricing".data, "Our plans".data, [], 0, 0⟩ ("pricing".data) = 110 :=
  ⟨by decide, by decide, by decide,
   calculateRelevanceScore_eq_specScore _ _ (by decide) (by decide) (by decide),
   by decide⟩

/-- An entry paired with its relevance score, as pushed onto the results
list by searchEntries for a non-blank query. -/
structure ScoredEntry where
  entry : KnowledgeEntry
  relevanceScore : Nat
deriving DecidableEq

/-- What searchEntries hands back: plain entries for a blank query (no
scoring), scored entries otherwise. -/
inductive SearchResult where
  | plain (entry : KnowledgeEntry)
  | scored (entry : KnowledgeEntry) (relevanceScore : Nat)
deriving DecidableEq

/-- The underlying entry of a search result. -/
def SearchResult.entry : SearchResult → KnowledgeEntry
  | .plain e => e
  | .scored e _ => e

/-- Insert an element into a list sorted by descending relevance score,
after every earlier element of greater-or-equal score: the insertion sort
this builds is the unique stable descending sort, which is the behaviour
of the JavaScript stable Array sort with the comparator
(a, b) => b.relevanceScore - a.relevanceScore. -/
def insertDesc (x : ScoredEntry) : List ScoredEntry → List ScoredEntry
  | [] => [x]
  | y :: ys =>
    if y.relevanceScore ≤ x.relevanceScore then x :: y :: ys
    else y :: insertDesc x ys

/-- Stable sort by descending relevance score. -/
def sortByScoreDesc (l : List ScoredEntry) : List ScoredEntry :=
  l.foldr insertDesc []

/-- KnowledgeBase.searchEntries on a given stored entry list: blank query
returns the first limit entries unscored; otherwise every entry is
scored, zero scores are dropped, the rest sorted by descending score
(stable) and truncated to limit. -/
def searchEntries (entries : List KnowledgeEntry) (query : Str) (limit : Nat) :
    List SearchResult :=
  if trim query = [] then (entries.take limit).map SearchResult.plain
  else
    let searchTerm := trim (toLower query)
    let results := entries.filterMap (fun e =>
      let score := calculateRelevanceScore e searchTerm
      if 0 < score then some (ScoredEntry.mk e score) else none)
    ((sortByScoreDesc results).take limit).map
      (fun r => SearchResult.scored r.entry r.relevanceScore)

theorem insertDesc_perm (x : ScoredEntry) (l : List ScoredEntry) :
    (insertDesc x l).Perm (x :: l) := by
  induction l with
  | nil => simp [insertDesc]
  | cons y ys ih =>
    by_cases hle : y.relevanceScore ≤ x.relevanceScore
    · rw [insertDesc, if_pos hle]
    · rw [insertDesc, if_neg hle]
      exact (List.Perm.cons y ih).trans (List.Perm.swap x y ys)

theorem pairwise_insertDesc (x : ScoredEntry) (l : List ScoredEntry)
    (h : l.Pairwise (fun a b => b.relevanceScore ≤ a.relevanceScore)) :
    (insertDesc x l).Pairwise (fun a b => b.relevanceScore ≤ a.relevanceScore) := by
  induction l with
  | nil => simp [insertDesc]
  | cons y ys ih =>
    rcases List.pairwise_cons.mp h with ⟨hy, hys⟩
    by_cases hle : y.relevanceScore ≤ x.relevanceScore
    · rw [insertDesc, if_pos hle]
      refine List.pairwise_cons.mpr ⟨?_, h⟩
      intro b hb
      rcases List.mem_cons.mp hb with rfl | hb'
      · exact hle
      · exact le_trans (hy b hb') hle
    · rw [insertDesc, if_neg hle]
      refine List.pairwise_cons.mpr ⟨?_, ih hys⟩
      intro b hb
      rcases List.mem_cons.mp ((insertDesc_perm x ys).mem_iff.mp hb) with rfl | hb'
      · exact le_of_not_le hle
      · exact hy b hb'

theorem filter_insertDesc (x : ScoredEntry) (l : List ScoredEntry) (s : Nat) :
    (insertDesc x l).filter (fun r => r.relevanceScore == s)
      = if x.relevanceScore == s
        then x :: l.filter (fun r => r.relevanceScore == s)
        else l.filter (fun r => r.relevanceScore == s) := by
  induction l with
  | nil => simp [insertDesc, List.filter_cons]
  | cons y ys ih =>
    by_cases hle : y.relevanceScore ≤ x.relevanceScore
    · rw [insertDesc, if_pos hle]
      by_cases hx : (x.relevanceScore == s) = true
      · simp [List.filter_cons, hx]
      · simp [List.filter_cons, hx]
    · rw [insertDesc, if_neg hle]
      by_cases hx : (x.relevanceScore == s) = true
      · have hxs : x.relevanceScore = s := by rwa [beq_iff_eq] at hx
        have hy : (y.relevanceScore == s) = false := by
          rw [beq_eq_false_iff_ne]
          omega
        simp [List.filter_cons, hx, hy, ih]
      · simp [List.filter_cons, hx, ih]

theorem sortByScoreDesc_perm (l : List ScoredEntry) : (sortByScoreDesc l).Perm l := by
  induction l with
  | nil => simp [sortByScoreDesc]
  | cons x xs ih =>
    show (insertDesc x (sortByScoreDesc xs)).Perm (x :: xs)
    exact (insertDesc_perm x _).trans (List.Perm.cons x ih)

theorem sortByScoreDesc_pairwise (l : List ScoredEntry) :
    (sortByScoreDesc l).Pairwise (fun a b => b.relevanceScore ≤ a.relevanceScore) := by
  induction l with
  | nil => simp [sortByScoreDesc]
  | cons x xs ih => exact pairwise_insertDesc x _ ih

theorem sortByScoreDesc_filter (l : List ScoredEntry) (s : Nat) :
    (sortByScoreDesc l).filter (fun r => r.relevanceScore == s)
      = l.filter (fun r => r.relevanceScore == s) := by
  induction l with
  | nil => rfl
  | cons x xs ih =>
    show (insertDesc x (sortByScoreDesc xs)).filter _ = _
    rw [filter_insertDesc]
    by_cases hx : (x.relevanceScore == s) = true
    · simp [List.filter_cons, hx, ih]
    · simp [List.filter_cons, hx, ih]

theorem filterMap_scored (entries : List KnowledgeEntry) (st : Str) :
    (entries.filterMap (fun e =>
      let score := calculateRelevanceScore e st
      if 0 < score then some (ScoredEntry.mk e score) else none))
    = (entries.filter (fun e => 0 < calculateRelevanceScore e st)).map
        (fun e => ScoredEntry.mk e (calculateRelevanceScore e st)) := by
  induction entries with
  | nil => rfl
  | cons e es ih =>
    by_cases h : 0 < calculateRelevanceScore e st
    · simp [List.filterMap_cons, List.filter_cons, h, ih]
    · simp [List.filterMap_cons, List.filter_cons, h, ih]

/-- C2: a blank (empty or whitespace-only) query makes searchEntries
return the first limit entries in stored order, unscored; a non-blank
query makes it score every entry against the lowercased trimmed query,
keep exactly the entries of positive score, sort them by descending
score with ties kept in original stored order (stable: the sublist at
each score level is unchanged), and truncate to limit. -/
theorem searchEntries_spec (entries : List KnowledgeEntry) (query : Str) (limit : Nat) :
    (trim query = [] →
      searchEntries entries query limit = (entries.take limit).map SearchResult.plain)
    ∧ (trim query ≠ [] →
      ∃ l : List ScoredEntry,
        searchEntries entries query limit
          = (l.take limit).map (fun r => SearchResult.scored r.entry r.relevanceScore)
        ∧ l.Perm ((entries.filter
            (fun e => 0 < calculateRelevanceScore e (trim (toLower query)))).map
            (fun e => ScoredEntry.mk e (calculateRelevanceScore e (trim (toLower query)))))
        ∧ l.Pairwise (fun a b => b.relevanceScore ≤ a.relevanceScore)
        ∧ ∀ s : Nat, l.filter (fun r => r.relevanceScore == s)
            = ((entries.filter
                (fun e => 0 < calculateRelevanceScore e (trim (toLower query)))).map
                (fun e => ScoredEntry.mk e
                  (calculateRelevanceScore e (trim (toLower query))))).filter
                (fun r => r.relevanceScore == s)) := by
  constructor
  · intro h
    rw [searchEntries, if_pos h]
  · intro h
    refine ⟨sortByScoreDesc (entries.filterMap (fun e =>
      let score := calculateRelevanceScore e (trim (toLower query))
      if 0 < score then some (ScoredEntry.mk e score) else none)), ?_, ?_, ?_, ?_⟩
    · rw [searchEntries, if_neg h]
    · exact (sortByScoreDesc_perm _).trans (by rw [filterMap_scored])
    · exact sortByScoreDesc_pairwise _
    · intro s
      rw [sortByScoreDesc_filter, filterMap_scored]

/-- Witness for C2 at a one-entry store and the non-blank query
"pricing": the second conjunct applies with its hypothesis discharged. -/
theorem searchEntries_spec_witness :
    ∃ l : List ScoredEntry,
      searchEntries [⟨"i1".data, "Pricing".data, "v".data, [], 0, 0⟩] ("pricing".data) 5
        = (l.take 5).map (fun r => SearchResult.scored r.entry r.relevanceScore)
      ∧ l.Perm ((([⟨"i1".data, "Pricing".data, "v".data, [], 0, 0⟩] :
            List KnowledgeEntry).filter
          (fun e => 0 < calculateRelevanceScore e (trim (toLower ("pricing".data))))).map
          (fun e => ScoredEntry.mk e (calculateRelevanceScore e (trim (toLower ("pricing".data))))))
      ∧ l.Pairwise (fun a b => b.relevanceScore ≤ a.relevanceScore)
      ∧ ∀ s : Nat, l.filter (fun r => r.relevanceScore == s)
          = ((([⟨"i1".data, "Pricing".data, "v".data, [], 0, 0⟩] :
                List KnowledgeEntry).filter
              (fun e => 0 < calculateRelevanceScore e (trim (toLower ("pricing".data))))).map
              (fun e => ScoredEntry.mk e
                (calculateRelevanceScore e (trim (toLower ("pricing".data)))))).filter
              (fun r => r.relevanceScore == s) :=
  (searchEntries_spec [⟨"i1".data, "Pricing".data, "v".data, [], 0, 0⟩]
    ("pricing".data) 5).2 (by decide)

/-! ## Completion gateway (GeminiService) -/

/-- One model tier: model identifier and quality label. -/
structure ModelTier where
  name : Str
  tier : Str
deriving DecidableEq

/-- Mutable gateway state: the tier cursor and the timestamp of the last
all-tiers-exhausted failure. -/
structure GatewayState where
  currentModelIndex : Nat
  lastFailureTime : Option Nat
deriving DecidableEq

/-- Outcome of one call to the external completion service. -/
inductive CallOutcome where
  | ok (text : Str)
  | err (msg : Str)
deriving DecidableEq

/-- The quota-error phrase list of GeminiService.isQuotaError. -/
def quotaErrorMessages : List Str :=
  ["quota exceeded".data, "rate limit".data, "too many requests".data,
   "resource exhausted".data, "RATE_LIMIT_EXCEEDED".data, "QUOTA_EXCEEDED".data]

/-- GeminiService.isQuotaError: the lowercased error message contains one
of the known quota phrases. -/
def isQuotaError (msg : Str) : Bool :=
  quotaErrorMessages.any (fun m => includes (toLower msg) m)

/-- GeminiService.switchToNextTier: advance the cursor unless already on
the last tier; returns whether a switch occurred. -/
def switchToNextTier (numTiers : Nat) (st : GatewayState) : Bool × GatewayState :=
  if st.currentModelIndex < numTiers - 1 then
    (true, { st with currentModelIndex := st.currentModelIndex + 1 })
  else (false, st)

/-- Result of generateResponse: a generated text with the tier metadata
of the tier that produced it, the all-tiers-exhausted error
("All Gemini model tiers have reached their limits"), or a rethrown
service error. -/
inductive GenResult where
  | success (text name tier : Str)
  | exhausted
  | thrown (msg : Str)
deriving DecidableEq

/-- What one run of generateResponse produced: its result, the gateway
state afterwards, and how many service calls were made. -/
structure GenOutput where
  result : GenResult
  state : GatewayState
  calls : Nat
deriving DecidableEq

/-- The retry loop of GeminiService.generateResponse. The external
service is an oracle from tier index to call outcome; fuel is the loop
bound (the number of tiers), and lastError the last caught error. -/
def generateLoop (tiers : List ModelTier) (oracle : Nat → CallOutcome) (now : Nat) :
    Nat → GatewayState → Nat → Option Str → GenOutput
  | 0, st, calls, lastError =>
    ⟨.thrown (lastError.getD ("Failed to generate response after all retries".data)),
     st, calls⟩
  | fuel + 1, st, calls, _ =>
    match oracle st.currentModelIndex with
    | .ok text =>
      ⟨.success text (tiers.getD st.currentModelIndex ⟨[], []⟩).name
        (tiers.getD st.currentModelIndex ⟨[], []⟩).tier, st, calls + 1⟩
    | .err m =>
      if isQuotaError m then
        match switchToNextTier tiers.length st with
        | (true, st') => generateLoop tiers oracle now fuel st' (calls + 1) (some m)
        | (false, st') =>
          ⟨.exhausted, { st' with lastFailureTime := some now }, calls + 1⟩
      else ⟨.thrown m, st, calls + 1⟩

/-- GeminiService.generateResponse: bounded tier-fallback loop around the
external completion service. -/
def generateResponse (tiers : List ModelTier) (oracle : Nat → CallOutcome)
    (now : Nat) (st : GatewayState) : GenOutput :=
  generateLoop tiers oracle now tiers.length st 0 none

theorem generateLoop_calls_le (tiers : List ModelTier) (oracle : Nat → CallOutcome)
    (now : Nat) (fuel : Nat) (st : GatewayState) (calls : Nat) (lastError : Option Str) :
    (generateLoop tiers oracle now fuel st calls lastError).calls ≤ calls + fuel := by
  induction fuel generalizing st calls lastError with
  | zero => simp [generateLoop]
  | succ n ih =>
    cases h : oracle st.currentModelIndex with
    | ok text =>
      have hrw : generateLoop tiers oracle now (n + 1) st calls lastError
          = ⟨.success text (tiers.getD st.currentModelIndex ⟨[], []⟩).name
              (tiers.getD st.currentModelIndex ⟨[], []⟩).tier, st, calls + 1⟩ := by
        rw [generateLoop]
        simp [h]
      rw [hrw]
      show calls + 1 ≤ calls + (n + 1)
      omega
    | err m =>
      by_cases hq : isQuotaError m = true
      · cases hsw : switchToNextTier tiers.length st with
        | mk b st' =>
          cases b with
          | true =>
            have hrw : generateLoop tiers oracle now (n + 1) st calls lastError
                = generateLoop tiers oracle now n st' (calls + 1) (some m) := by
              rw [generateLoop]
              simp [h, hq, hsw]
            rw [hrw]
            calc (generateLoop tiers oracle now n st' (calls + 1) (some m)).calls
                ≤ calls + 1 + n := ih st' (calls + 1) (some m)
              _ ≤ calls + (n + 1) := by omega
          | false =>
            have hrw : generateLoop tiers oracle now (n + 1) st calls lastError
                = ⟨.exhausted, { st' with lastFailureTime := some now }, calls + 1⟩ := by
              rw [generateLoop]
              simp [h, hq, hsw]
            rw [hrw]
            show calls + 1 ≤ calls + (n + 1)
            omega
      · have hrw : generateLoop tiers oracle now (n + 1) st calls lastError
            = ⟨.thrown m, st, calls + 1⟩ := by
          rw [generateLoop]
          simp [h, hq]
        rw [hrw]
        show calls + 1 ≤ calls + (n + 1)
        omega

/-- C3: with three tiers starting at the top, quota-classified errors on
tiers 0 and 1 followed by a success on tier 2 make generateResponse
return the generated text with tier 2's model name and tier label (no
error raised, tier cursor left at 2); quota errors on all three tiers
make it return the all-tiers-exhausted error and record the failure
timestamp; and the loop never makes more service calls than there are
tiers. -/
theorem generateResponse_fallback (t0 t1 t2 : ModelTier) (m0 m1 m2 text : Str) (now : Nat)
    (h0 : isQuotaError m0 = true) (h1 : isQuotaError m1 = true)
    (h2 : isQuotaError m2 = true) :
    generateResponse [t0, t1, t2]
        (fun i => if i = 0 then .err m0 else if i = 1 then .err m1 else .ok text)
        now ⟨0, none⟩
      = ⟨.success text t2.name t2.tier, ⟨2, none⟩, 3⟩
    ∧ generateResponse [t0, t1, t2]
        (fun i => if i = 0 then .err m0 else if i = 1 then .err m1 else .err m2)
        now ⟨0, none⟩
      = ⟨.exhausted, ⟨2, some now⟩, 3⟩
    ∧ ∀ (oracle : Nat → CallOutcome) (st : GatewayState),
        (generateResponse [t0, t1, t2] oracle now st).calls ≤ 3 := by
  refine ⟨?_, ?_, ?_⟩
  · simp [generateResponse, generateLoop, h0, h1, switchToNextTier]
  · simp [generateResponse, generateLoop, h0, h1, h2, switchToNextTier]
  · intro oracle st
    exact generateLoop_calls_le [t0, t1, t2] oracle now 3 st 0 none

/-- Witness for C3 with the concrete quota message "quota exceeded". -/
theorem generateResponse_fallback_witness :
    isQuotaError ("quota exceeded".data) = true
    ∧ generateResponse [⟨"m0".data, "pro".data⟩, ⟨"m1".data, "flash".data⟩,
          ⟨"m2".data, "flash-lite".data⟩]
        (fun i => if i = 0 then .err ("quota exceeded".data)
          else if i = 1 then .err ("quota exceeded".data) else .ok ("hi".data))
        7 ⟨0, none⟩
      = ⟨.success ("hi".data) ("m2".data) ("flash-lite".data), ⟨2, none⟩, 3⟩ :=
  ⟨by decide,
   (generateResponse_fallback ⟨"m0".data, "pro".data⟩ ⟨"m1".data, "flash".data⟩
     ⟨"m2".data, "flash-lite".data⟩ ("quota exceeded".data) ("quota exceeded".data)
     ("quota exceeded".data) ("hi".data) 7 (by decide) (by decide) (by decide)).1⟩

/-- C4: an error not classified as a quota error is propagated unchanged
after a single service call, with the tier cursor (and the whole gateway
state) left exactly as it was. -/
theorem generateResponse_passthrough (tiers : List ModelTier)
    (oracle : Nat → CallOutcome) (now : Nat) (st : GatewayState) (m : Str)
    (hlen : 0 < tiers.length)
    (hcall : oracle st.currentModelIndex = .err m)
    (hq : isQuotaError m = false) :
    generateResponse tiers oracle now st = ⟨.thrown m, st, 1⟩ := by
  rcases tiers with _ | ⟨t, ts⟩
  · simp at hlen
  · simp [generateResponse, generateLoop, hcall, hq]

/-- Witness for C4: a one-tier gateway and the non-quota message "bad
request" propagate the error unchanged with no tier switch. -/
theorem generateResponse_passthrough_witness :
    0 < ([⟨"m0".data, "pro".data⟩] : List ModelTier).length
    ∧ (fun _ : Nat => CallOutcome.err ("bad request".data)) 0 = .err ("bad request".data)
    ∧ isQuotaError ("bad request".data) = false
    ∧ generateResponse [⟨"m0".data, "pro".data⟩]
        (fun _ => .err ("bad request".data)) 5 ⟨0, none⟩
      = ⟨.thrown ("bad request".data), ⟨0, none⟩, 1⟩ :=
  ⟨by decide, by decide, by decide,
   generateResponse_passthrough [⟨"m0".data, "pro".data⟩]
     (fun _ => .err ("bad request".data)) 5 ⟨0, none⟩ ("bad request".data)
     (by decide) (by decide) (by decide)⟩

/-! ## Knowledge store persistence (KnowledgeBase) -/

/-- The persisted knowledge-base document. -/
structure KBDoc where
  entries : List KnowledgeEntry
  lastUpdated : Nat
  version : Str
  recovered : Bool
deriving DecidableEq

/-- What one read of the backing file yields, after JSON parsing: the
file is absent (ENOENT), its content is not parseable (SyntaxError), it
is a bare legacy array, a document object with an entries array, or
parseable JSON whose entries field is not an array. -/
inductive FileData where
  | missing
  | unparseable (raw : Str)
  | jsonArray (entries : List KnowledgeEntry)
  | jsonDoc (doc : KBDoc)
  | badShape
deriving DecidableEq

/-- Observable effects of a store operation on its environment. -/
inductive Effect where
  | readAttempt
  | sleep (ms : Nat)
  | corruptionBackup (raw : Str)
  | save (doc : KBDoc)
deriving DecidableEq

/-- Errors surfaced by store operations. -/
inductive StoreErr where
  | loadFailed
  | notFound
deriving DecidableEq

def Effect.isReadAttempt : Effect → Bool
  | .readAttempt => true
  | _ => false

def Effect.isSleep : Effect → Bool
  | .sleep _ => true
  | _ => false

def Effect.isCorruptionBackup : Effect → Bool
  | .corruptionBackup _ => true
  | _ => false

def Effect.isSave : Effect → Bool
  | .save _ => true
  | _ => false

/-- Did a trace persist anything? -/
def hasSave (effs : List Effect) : Bool := effs.any Effect.isSave

/-- The store's fixed retry bound. -/
def maxRetries : Nat := 3

/-- The empty document created when the backing file is absent. -/
def emptyKB (now : Nat) : KBDoc := ⟨[], now, "1.0".data, false⟩

/-- The reset document written after quarantining corrupt content. -/
def recoveredKB (now : Nat) : KBDoc := ⟨[], now, "1.0".data, true⟩

instance {ε α : Type} [DecidableEq ε] [DecidableEq α] : DecidableEq (Except ε α) :=
  fun x y =>
  match x, y with
  | .error a, .error b =>
    if h : a = b then .isTrue (congrArg Except.error h)
    else .isFalse (fun hc => h (Except.error.inj hc))
  | .ok a, .ok b =>
    if h : a = b then .isTrue (congrArg Except.ok h)
    else .isFalse (fun hc => h (Except.ok.inj hc))
  | .error _, .ok _ => .isFalse (fun hc => Except.noConfusion hc)
  | .ok _, .error _ => .isFalse (fun hc => Except.noConfusion hc)

/-- What one attempt of the load loop does: either finish with a result,
or fall through to the next attempt (with the effects it performed). -/
inductive AttemptResult where
  | done (r : Except StoreErr KBDoc) (effs : List Effect)
  | retry (effs : List Effect)
deriving DecidableEq

/-- One iteration of the loadKnowledgeBase retry loop at a given attempt
number: an absent file creates and persists an empty document; a legacy
bare array is wrapped and the migrated document persisted; a well-formed
document is returned as-is; unparseable content is quarantined and the
store reset to an empty recovered document — but only on a non-final
attempt, a parse error on the last attempt falls out of the loop; a
structurally invalid document sleeps 100·attempt ms and retries on a
non-final attempt and falls out of the loop on the last. -/
def loadAttempt (read : Nat → FileData) (now : Nat) (attempt : Nat) : AttemptResult :=
  match read attempt with
  | .missing => .done (.ok (emptyKB now)) [.readAttempt, .save (emptyKB now)]
  | .jsonArray l =>
    .done (.ok ⟨l, now, "1.0".data, false⟩)
      [.readAttempt, .save ⟨l, now, "1.0".data, false⟩]
  | .jsonDoc d => .done (.ok d) [.readAttempt]
  | .unparseable raw =>
    if attempt < maxRetries then
      .done (.ok (recoveredKB now))
        [.readAttempt, .corruptionBackup raw, .save (recoveredKB now)]
    else .retry [.readAttempt]
  | .badShape =>
    if attempt < maxRetries then .retry [.readAttempt, .sleep (100 * attempt)]
    else .retry [.readAttempt]

/-- KnowledgeBase.loadKnowledgeBase: the three-attempt retry loop,
unrolled to its fixed bound, throwing after the final attempt falls
through. -/
def loadKnowledgeBase (read : Nat → FileData) (now : Nat) :
    Except StoreErr KBDoc × List Effect :=
  match loadAttempt read now 1 with
  | .done r effs => (r, effs)
  | .retry effs1 =>
    match loadAttempt read now 2 with
    | .done r effs2 => (r, effs1 ++ effs2)
    | .retry effs2 =>
      match loadAttempt read now 3 with
      | .done r effs3 => (r, effs1 ++ effs2 ++ effs3)
      | .retry effs3 => (.error .loadFailed, effs1 ++ effs2 ++ effs3)

/-- KnowledgeBase.getAllEntries: load, then project the entry list. -/
def getAllEntriesOp (read : Nat → FileData) (now : Nat) :
    Except StoreErr (List KnowledgeEntry) × List Effect :=
  match loadKnowledgeBase read now with
  | (.ok kb, effs) => (.ok kb.entries, effs)
  | (.error e, effs) => (.error e, effs)

/-- KnowledgeBase.getEntryById, on an in-memory entry list: first entry
with the given id, absent is not an error. -/
def getEntryById (entries : List KnowledgeEntry) (id : Str) : Option KnowledgeEntry :=
  entries.find? (fun e => e.id == id)

/-- KnowledgeBase.getEntryById including the load. -/
def getEntryByIdOp (read : Nat → FileData) (now : Nat) (id : Str) :
    Except StoreErr (Option KnowledgeEntry) × List Effect :=
  match getAllEntriesOp read now with
  | (.ok entries, effs) => (.ok (getEntryById entries id), effs)
  | (.error e, effs) => (.error e, effs)

/-- KnowledgeBase.searchEntries including the load. -/
def searchEntriesOp (read : Nat → FileData) (now : Nat) (query : Str) (limit : Nat) :
    Except StoreErr (List SearchResult) × List Effect :=
  match getAllEntriesOp read now with
  | (.ok entries, effs) => (.ok (searchEntries entries query limit), effs)
  | (.error e, effs) => (.error e, effs)

/-- KnowledgeBase.getRelevantContext on an in-memory entry list: the
"key: value" lines of the top search results joined by blank lines,
empty when nothing matches. -/
def getRelevantContext (entries : List KnowledgeEntry) (userMessage : Str)
    (maxEntries : Nat) : Str :=
  let searchResults := searchEntries entries userMessage maxEntries
  if searchResults.isEmpty then []
  else List.intercalate ("\n\n".data)
    (searchResults.map (fun r => r.entry.key ++ ": ".data ++ r.entry.value))

/-- KnowledgeBase.getRelevantContext including the load. -/
def getRelevantContextOp (read : Nat → FileData) (now : Nat) (userMessage : Str)
    (maxEntries : Nat) : Except StoreErr Str × List Effect :=
  match getAllEntriesOp read now with
  | (.ok entries, effs) => (.ok (getRelevantContext entries userMessage maxEntries), effs)
  | (.error e, effs) => (.error e, effs)

/-- The statistics record of KnowledgeBase.getStats, with the two mean
lengths as exact rationals. -/
structure KBStats where
  totalEntries : Nat
  lastUpdated : Nat
  averageKeyLength : ℚ
  averageValueLength : ℚ
deriving DecidableEq

/-- The statistics computed from an entry list and a loaded document. -/
def getStats (entries : List KnowledgeEntry) (kb : KBDoc) : KBStats :=
  ⟨entries.length, kb.lastUpdated,
   if 0 < entries.length then
     ((entries.map (fun e => (e.key.length : ℚ))).sum) / (entries.length : ℚ)
   else 0,
   if 0 < entries.length then
     ((entries.map (fun e => (e.value.length : ℚ))).sum) / (entries.length : ℚ)
   else 0⟩

/-- KnowledgeBase.getStats: it loads twice, once through getAllEntries
and once directly. The two loads are given separate read oracles because
the first load may rewrite the backing file, in which case the second
load sees the rewritten file. -/
def getStatsOp (read readAgain : Nat → FileData) (now : Nat) :
    Except StoreErr KBStats × List Effect :=
  match getAllEntriesOp read now with
  | (.error e, effs) => (.error e, effs)
  | (.ok entries, effs1) =>
    match loadKnowledgeBase readAgain now with
    | (.error e, effs2) => (.error e, effs1 ++ effs2)
    | (.ok kb, effs2) => (.ok (getStats entries kb), effs1 ++ effs2)

/-! ## Knowledge store CRUD -/

/-- KnowledgeBase.createEntry on a loaded document: trim key and value,
build the entry with the generated id and equal timestamps, append it,
stamp the document (as the subsequent save does), and return both. -/
def createEntry (kb : KBDoc) (newId key value : Str) (tags : List Str) (now : Nat) :
    KBDoc × KnowledgeEntry :=
  let newEntry : KnowledgeEntry := ⟨newId, trim key, trim value, tags, now, now⟩
  ({ kb with entries := kb.entries ++ [newEntry], lastUpdated := now }, newEntry)

/-- KnowledgeBase.createEntry including the load and the save. -/
def createEntryOp (read : Nat → FileData) (now : Nat) (newId key value : Str)
    (tags : List Str) : Except StoreErr (KBDoc × KnowledgeEntry) × List Effect :=
  match loadKnowledgeBase read now with
  | (.ok kb, effs) =>
    let r := createEntry kb newId key value tags now
    (.ok r, effs ++ [.save r.1])
  | (.error e, effs) => (.error e, effs)

/-- A partial update: the fields of the update object the store's
interface admits, each present or absent. -/
structure EntryUpdates where
  key : Option Str
  value : Option Str
  tags : Option (List Str)
deriving DecidableEq

/-- Spreading an update object over an existing entry: provided fields
replace the old ones, the id is forced back to the existing id, and
updatedAt is restamped. -/
def applyUpdates (e : KnowledgeEntry) (u : EntryUpdates) (now : Nat) : KnowledgeEntry :=
  ⟨e.id, u.key.getD e.key, u.value.getD e.value, u.tags.getD e.tags, e.createdAt, now⟩

/-- Replace the first entry with the given id in place; none if no entry
has the id. Returns the new list and the merged entry. -/
def updateEntries (l : List KnowledgeEntry) (id : Str) (u : EntryUpdates) (now : Nat) :
    Option (List KnowledgeEntry × KnowledgeEntry) :=
  match l with
  | [] => none
  | e :: rest =>
    if e.id = id then some (applyUpdates e u now :: rest, applyUpdates e u now)
    else
      match updateEntries rest id u now with
      | none => none
      | some (rest', upd) => some (e :: rest', upd)

/-- KnowledgeBase.updateEntry on a loaded document: not-found error when
the id is unknown (nothing is modified or saved in that case), otherwise
the merged entry replaces the old one in place and the stamped document
is returned with it. -/
def updateEntry (kb : KBDoc) (id : Str) (u : EntryUpdates) (now : Nat) :
    Except StoreErr (KBDoc × KnowledgeEntry) :=
  match updateEntries kb.entries id u now with
  | none => .error .notFound
  | some (l, e) => .ok ({ kb with entries := l, lastUpdated := now }, e)

/-- KnowledgeBase.updateEntry including the load and the save; on a
not-found id the error is thrown before any save. -/
def updateEntryOp (read : Nat → FileData) (now : Nat) (id : Str) (u : EntryUpdates) :
    Except StoreErr (KBDoc × KnowledgeEntry) × List Effect :=
  match loadKnowledgeBase read now with
  | (.ok kb, effs) =>
    match updateEntry kb id u now with
    | .ok (kb', e) => (.ok (kb', e), effs ++ [.save kb'])
    | .error err => (.error err, effs)
  | (.error e, effs) => (.error e, effs)

/-- Remove the first entry with the given id; none if the id is unknown.
Returns the remaining list and the removed entry. -/
def removeEntry (l : List KnowledgeEntry) (id : Str) :
    Option (List KnowledgeEntry × KnowledgeEntry) :=
  match l with
  | [] => none
  | e :: rest =>
    if e.id = id then some (rest, e)
    else
      match removeEntry rest id with
      | none => none
      | some (rest', d) => some (e :: rest', d)

/-- KnowledgeBase.deleteEntry on a loaded document: not-found error when
the id is unknown, otherwise the entry is spliced out and the stamped
document returned with the removed entry. -/
def deleteEntry (kb : KBDoc) (id : Str) (now : Nat) :
    Except StoreErr (KBDoc × KnowledgeEntry) :=
  match removeEntry kb.entries id with
  | none => .error .notFound
  | some (l, e) => .ok ({ kb with entries := l, lastUpdated := now }, e)

/-! ## Load behaviour: corruption recovery, legacy migration, read side effects -/

/-- C5 counterexample: with the backing file persistently holding the
unparseable content "x", load performs exactly one read attempt, zero
backoff sleeps and one quarantine copy, and returns the recovered empty
document — so it does not retry up to 3 attempts with a short backoff
before quarantining, as the claim states: recovery happens immediately on
the first parse error. -/
theorem loadKnowledgeBase_no_retry_before_recovery :
    (loadKnowledgeBase (fun _ => .unparseable ['x']) 0).2.countP Effect.isReadAttempt = 1
    ∧ (loadKnowledgeBase (fun _ => .unparseable ['x']) 0).2.countP Effect.isSleep = 0
    ∧ (loadKnowledgeBase (fun _ => .unparseable ['x']) 0).2.countP Effect.isCorruptionBackup = 1
    ∧ (loadKnowledgeBase (fun _ => .unparseable ['x']) 0).1 = .ok (recoveredKB 0) := by
  decide

/-- C5 (amended): on the first parse failure, load immediately copies the
corrupt content to the quarantine side file and returns (and persists) a
valid empty document flagged recovered, without raising and without any
prior retry or backoff; the 3-attempt retry with backoff applies only to
other (non-parse, non-absent-file) load errors. -/
theorem loadKnowledgeBase_corruption_recovery (read : Nat → FileData) (raw : Str)
    (now : Nat) (h : read 1 = .unparseable raw) :
    loadKnowledgeBase read now
      = (.ok (recoveredKB now),
         [.readAttempt, .corruptionBackup raw, .save (recoveredKB now)]) := by
  simp [loadKnowledgeBase, loadAttempt, h, maxRetries]

/-- Witness for the amended C5 at the concrete corrupt content "x". -/
theorem loadKnowledgeBase_corruption_recovery_witness :
    (fun _ : Nat => FileData.unparseable ['x']) 1 = FileData.unparseable ['x']
    ∧ loadKnowledgeBase (fun _ => .unparseable ['x']) 5
      = (.ok (recoveredKB 5),
         [.readAttempt, .corruptionBackup ['x'], .save (recoveredKB 5)]) :=
  ⟨rfl, loadKnowledgeBase_corruption_recovery (fun _ => .unparseable ['x']) ['x'] 5 rfl⟩

/-- C6: loading a backing file holding a bare legacy array returns a
document whose entries equal that array, carrying the version tag and the
fresh lastUpdated stamp, and persists the migrated document before
returning. -/
theorem loadKnowledgeBase_legacy_migration (read : Nat → FileData)
    (l : List KnowledgeEntry) (now : Nat) (h : read 1 = .jsonArray l) :
    loadKnowledgeBase read now
      = (.ok ⟨l, now, "1.0".data, false⟩,
         [.readAttempt, .save ⟨l, now, "1.0".data, false⟩]) := by
  simp [loadKnowledgeBase, loadAttempt, h]

/-- Witness for C6 at a concrete one-entry legacy array. -/
theorem loadKnowledgeBase_legacy_migration_witness :
    (fun _ : Nat => FileData.jsonArray [⟨"i".data, "k".data, "v".data, [], 0, 0⟩]) 1
      = FileData.jsonArray [⟨"i".data, "k".data, "v".data, [], 0, 0⟩]
    ∧ loadKnowledgeBase
        (fun _ => .jsonArray [⟨"i".data, "k".data, "v".data, [], 0, 0⟩]) 9
      = (.ok ⟨[⟨"i".data, "k".data, "v".data, [], 0, 0⟩], 9, "1.0".data, false⟩,
         [.readAttempt,
          .save ⟨[⟨"i".data, "k".data, "v".data, [], 0, 0⟩], 9, "1.0".data, false⟩]) :=
  ⟨rfl, loadKnowledgeBase_legacy_migration _ [⟨"i".data, "k".data, "v".data, [], 0, 0⟩] 9 rfl⟩

theorem loadKnowledgeBase_wellformed (read : Nat → FileData) (d : KBDoc) (now : Nat)
    (h : read 1 = .jsonDoc d) :
    loadKnowledgeBase read now = (.ok d, [.readAttempt]) := by
  simp [loadKnowledgeBase, loadAttempt, h]

theorem loadKnowledgeBase_repair_saves (read : Nat → FileData) (now : Nat)
    (h : read 1 = .missing ∨ (∃ l, read 1 = .jsonArray l)
      ∨ (∃ raw, read 1 = .unparseable raw)) :
    ∃ kb effs, loadKnowledgeBase read now = (.ok kb, effs) ∧ hasSave effs = true := by
  rcases h with h | ⟨l, h⟩ | ⟨raw, h⟩
  · refine ⟨emptyKB now, [.readAttempt, .save (emptyKB now)], ?_, ?_⟩
    · simp [loadKnowledgeBase, loadAttempt, h]
    · simp [hasSave, Effect.isSave]
  · refine ⟨⟨l, now, "1.0".data, false⟩,
      [.readAttempt, .save ⟨l, now, "1.0".data, false⟩], ?_, ?_⟩
    · simp [loadKnowledgeBase, loadAttempt, h]
    · simp [hasSave, Effect.isSave]
  · refine ⟨recoveredKB now,
      [.readAttempt, .corruptionBackup raw, .save (recoveredKB now)], ?_, ?_⟩
    · simp [loadKnowledgeBase, loadAttempt, h, maxRetries]
    · simp [hasSave, Effect.isSave, Effect.isCorruptionBackup]

/-- C10: the read operations are not write-free. Whenever the backing
file is absent, holds a legacy bare array, or holds unparseable content,
each operation that loads the document — getAllEntries, getEntryById,
searchEntries, getRelevantContext and getStats — persists a new, migrated
or reset document as a side effect of the load; when the file already
holds a well-formed document every one of them leaves the file unsaved. -/
theorem store_reads_persist_on_repair (read readAgain : Nat → FileData) (now : Nat)
    (id query msg : Str) (limit maxEntries : Nat) :
    ((read 1 = .missing ∨ (∃ l, read 1 = .jsonArray l)
        ∨ (∃ raw, read 1 = .unparseable raw)) →
      hasSave (getAllEntriesOp read now).2 = true
      ∧ hasSave (getEntryByIdOp read now id).2 = true
      ∧ hasSave (searchEntriesOp read now query limit).2 = true
      ∧ hasSave (getRelevantContextOp read now msg maxEntries).2 = true
      ∧ hasSave (getStatsOp read readAgain now).2 = true)
    ∧ (∀ d, read 1 = .jsonDoc d →
      hasSave (getAllEntriesOp read now).2 = false
      ∧ hasSave (getEntryByIdOp read now id).2 = false
      ∧ hasSave (searchEntriesOp read now query limit).2 = false
      ∧ hasSave (getRelevantContextOp read now msg maxEntries).2 = false
      ∧ hasSave (getStatsOp read read now).2 = false) := by
  constructor
  · intro h
    rcases loadKnowledgeBase_repair_saves read now h with ⟨kb, effs, hl, hs⟩
    refine ⟨?_, ?_, ?_, ?_, ?_⟩
    · simp [getAllEntriesOp, hl, hs]
    · simp [getEntryByIdOp, getAllEntriesOp, hl, hs]
    · simp [searchEntriesOp, getAllEntriesOp, hl, hs]
    · simp [getRelevantContextOp, getAllEntriesOp, hl, hs]
    · rcases h2 : loadKnowledgeBase readAgain now with ⟨r2, effs2⟩
      cases r2 with
      | ok kb2 =>
        simp [getStatsOp, getAllEntriesOp, hl, h2, hasSave, List.any_append]
        simp [hasSave] at hs
        simp [hs]
      | error e2 =>
        simp [getStatsOp, getAllEntriesOp, hl, h2, hasSave, List.any_append]
        simp [hasSave] at hs
        simp [hs]
  · intro d h
    have hl := loadKnowledgeBase_wellformed read d now h
    refine ⟨?_, ?_, ?_, ?_, ?_⟩
    · simp [getAllEntriesOp, hl, hasSave, Effect.isSave]
    · simp [getEntryByIdOp, getAllEntriesOp, hl, hasSave, Effect.isSave]
    · simp [searchEntriesOp, getAllEntriesOp, hl, hasSave, Effect.isSave]
    · simp [getRelevantContextOp, getAllEntriesOp, hl, hasSave, Effect.isSave]
    · simp [getStatsOp, getAllEntriesOp, hl, hasSave, Effect.isSave, List.any_append]

/-- Witness for C10: an absent backing file makes the plain getAllEntries
read persist a document. -/
theorem store_reads_persist_on_repair_witness :
    hasSave (getAllEntriesOp (fun _ => FileData.missing) 0).2 = true :=
  ((store_reads_persist_on_repair (fun _ => .missing) (fun _ => .missing) 0
    [] [] [] 0 0).1 (Or.inl rfl)).1

/-! ## Create / update / invariants -/

theorem getEntryById_append_fresh (l : List KnowledgeEntry) (e : KnowledgeEntry)
    (h : ∀ x ∈ l, x.id ≠ e.id) :
    getEntryById (l ++ [e]) e.id = some e := by
  induction l with
  | nil => simp [getEntryById, List.find?]
  | cons x xs ih =>
    have hx : (x.id == e.id) = false := by
      rw [beq_eq_false_iff_ne]
      exact h x (List.mem_cons_self x xs)
    rw [List.cons_append, getEntryById, List.find?]
    rw [hx]
    exact ih (fun y hy => h y (List.mem_cons_of_mem x hy))

/-- C7: createEntry trims key and value, builds an entry with the
generated id and equal createdAt/updatedAt stamps, appends it at the end
of the collection, persists the new document, and returns the entry; a
subsequent getEntryById on the returned id yields an entry whose key and
value equal the trimmed inputs and whose tags are the given tags, as long
as the generated id is fresh. -/
theorem createEntry_getById (read : Nat → FileData) (now : Nat) (kb : KBDoc)
    (newId key value : Str) (tags : List Str)
    (hread : read 1 = .jsonDoc kb)
    (hfresh : ∀ e ∈ kb.entries, e.id ≠ newId) :
    ∃ kb' e, createEntryOp read now newId key value tags
        = (.ok (kb', e), [.readAttempt, .save kb'])
      ∧ e.id = newId ∧ e.key = trim key ∧ e.value = trim value ∧ e.tags = tags
      ∧ e.createdAt = now ∧ e.updatedAt = now ∧ e.createdAt = e.updatedAt
      ∧ kb'.entries = kb.entries ++ [e]
      ∧ getEntryById kb'.entries newId = some e := by
  refine ⟨{ kb with
      entries := kb.entries ++ [⟨newId, trim key, trim value, tags, now, now⟩],
      lastUpdated := now },
    ⟨newId, trim key, trim value, tags, now, now⟩,
    ?_, rfl, rfl, rfl, rfl, rfl, rfl, rfl, rfl, ?_⟩
  · simp [createEntryOp, loadKnowledgeBase, loadAttempt, hread, createEntry]
  · exact getEntryById_append_fresh kb.entries ⟨newId, trim key, trim value, tags, now, now⟩ hfresh

/-- Witness for C7: creating " FAQ " / " We ship " with a fresh id in an
empty store and reading it back. -/
theorem createEntry_getById_witness :
    (fun _ : Nat => FileData.jsonDoc (emptyKB 0)) 1 = FileData.jsonDoc (emptyKB 0)
    ∧ (∀ e ∈ (emptyKB 0).entries, e.id ≠ "id7".data)
    ∧ ∃ kb' e, createEntryOp (fun _ => .jsonDoc (emptyKB 0)) 4 ("id7".data)
          (" FAQ ".data) (" We ship ".data) ["shipping".data]
        = (.ok (kb', e), [.readAttempt, .save kb'])
      ∧ e.id = "id7".data ∧ e.key = trim (" FAQ ".data) ∧ e.value = trim (" We ship ".data)
      ∧ e.tags = ["shipping".data]
      ∧ e.createdAt = 4 ∧ e.updatedAt = 4 ∧ e.createdAt = e.updatedAt
      ∧ kb'.entries = (emptyKB 0).entries ++ [e]
      ∧ getEntryById kb'.entries ("id7".data) = some e :=
  ⟨rfl, by decide,
   createEntry_getById (fun _ => .jsonDoc (emptyKB 0)) 4 (emptyKB 0) ("id7".data)
     (" FAQ ".data) (" We ship ".data) ["shipping".data] rfl (by decide)⟩

theorem updateEntries_none (l : List KnowledgeEntry) (id : Str) (u : EntryUpdates)
    (now : Nat) (h : ∀ e ∈ l, e.id ≠ id) :
    updateEntries l id u now = none := by
  induction l with
  | nil => rfl
  | cons x xs ih =>
    rw [updateEntries, if_neg (h x (List.mem_cons_self x xs)),
      ih (fun e he => h e (List.mem_cons_of_mem x he))]

theorem updateEntries_ok (l : List KnowledgeEntry) (id : Str) (u : EntryUpdates)
    (now : Nat) (l' : List KnowledgeEntry) (e' : KnowledgeEntry)
    (h : updateEntries l id u now = some (l', e')) :
    ∃ e, e ∈ l ∧ e.id = id ∧ e' = applyUpdates e u now ∧ l'.length = l.length := by
  induction l generalizing l' with
  | nil => simp [updateEntries] at h
  | cons x xs ih =>
    by_cases hx : x.id = id
    · rw [updateEntries, if_pos hx] at h
      have h' := Option.some.inj h
      have h1 : applyUpdates x u now :: xs = l' := congrArg Prod.fst h'
      have h2 : applyUpdates x u now = e' := congrArg Prod.snd h'
      refine ⟨x, List.mem_cons_self x xs, hx, h2.symm, ?_⟩
      rw [← h1]
      simp
    · rw [updateEntries, if_neg hx] at h
      cases hrec : updateEntries xs id u now with
      | none => rw [hrec] at h; cases h
      | some p =>
        rcases p with ⟨rest', upd⟩
        rw [hrec] at h
        have h' := Option.some.inj h
        have h1 : x :: rest' = l' := congrArg Prod.fst h'
        have h2 : upd = e' := congrArg Prod.snd h'
        rcases ih rest' (by rw [hrec, h2]) with ⟨e, hmem, hid, heq, hlen⟩
        exact ⟨e, List.mem_cons_of_mem x hmem, hid, heq, by rw [← h1]; simp [hlen]⟩

/-- C8: updateEntry merges only the provided fields into the first entry
with the given id, never overwrites the id or createdAt, restamps
updatedAt (so it is ≥ the previous one under a monotone clock), and keeps
the collection's length; in particular a value-only update leaves key,
tags, createdAt and id unchanged; an unknown id fails with the not-found
error before anything is modified or saved. -/
theorem updateEntry_spec (kb : KBDoc) (id : Str) (u : EntryUpdates) (now : Nat)
    (read : Nat → FileData) :
    (∀ kb' e', updateEntry kb id u now = .ok (kb', e') →
      ∃ e, e ∈ kb.entries ∧ e.id = id
        ∧ e'.id = e.id
        ∧ e'.createdAt = e.createdAt
        ∧ e'.updatedAt = now
        ∧ (u.key = none → e'.key = e.key)
        ∧ (u.value = none → e'.value = e.value)
        ∧ (u.tags = none → e'.tags = e.tags)
        ∧ (∀ v2, u.value = some v2 → e'.value = v2)
        ∧ (e.updatedAt ≤ now → e.updatedAt ≤ e'.updatedAt)
        ∧ kb'.entries.length = kb.entries.length)
    ∧ ((∀ e ∈ kb.entries, e.id ≠ id) →
      updateEntry kb id u now = .error .notFound
      ∧ (read 1 = .jsonDoc kb →
        updateEntryOp read now id u = (.error .notFound, [.readAttempt]))) := by
  constructor
  · intro kb' e' h
    rw [updateEntry] at h
    cases hup : updateEntries kb.entries id u now with
    | none => rw [hup] at h; cases h
    | some p =>
      rcases p with ⟨l, e2⟩
      rw [hup] at h
      have h' := Except.ok.inj h
      have h1 : { kb with entries := l, lastUpdated := now } = kb' := congrArg Prod.fst h'
      have h2 : e2 = e' := congrArg Prod.snd h'
      rcases updateEntries_ok kb.entries id u now l e2 hup with ⟨e, hmem, hid, heq, hlen⟩
      subst h2
      refine ⟨e, hmem, hid, ?_, ?_, ?_, ?_, ?_, ?_, ?_, ?_, ?_⟩
      · rw [heq]; rfl
      · rw [heq]; rfl
      · rw [heq]; rfl
      · intro hk; rw [heq, applyUpdates, hk]; rfl
      · intro hv; rw [heq, applyUpdates, hv]; rfl
      · intro ht; rw [heq, applyUpdates, ht]; rfl
      · intro v2 hv; rw [heq, applyUpdates, hv]; rfl
      · intro hle; rw [heq]; exact hle
      · rw [← h1]; exact hlen
  · intro h
    have hnone := updateEntries_none kb.entries id u now h
    constructor
    · rw [updateEntry, hnone]
    · intro hread
      have hl := loadKnowledgeBase_wellformed read kb now hread
      simp [updateEntryOp, hl, updateEntry, hnone]

/-- Witness for C8: a value-only update on a one-entry store keeps id,
key, tags and createdAt and restamps updatedAt; an unknown id is a
not-found error with nothing saved. -/
theorem updateEntry_spec_witness :
    (∀ kb' e',
      updateEntry ⟨[⟨"a".data, "k".data, "v".data, ["t".data], 1, 1⟩], 1, "1.0".data, false⟩
        ("a".data) ⟨none, some ("w".data), none⟩ 6 = .ok (kb', e') →
      ∃ e, e ∈ ([⟨"a".data, "k".data, "v".data, ["t".data], 1, 1⟩] : List KnowledgeEntry)
        ∧ e.id = "a".data
        ∧ e'.id = e.id
        ∧ e'.createdAt = e.createdAt
        ∧ e'.updatedAt = 6
        ∧ ((⟨none, some ("w".data), none⟩ : EntryUpdates).key = none → e'.key = e.key)
        ∧ ((⟨none, some ("w".data), none⟩ : EntryUpdates).value = none → e'.value = e.value)
        ∧ ((⟨none, some ("w".data), none⟩ : EntryUpdates).tags = none → e'.tags = e.tags)
        ∧ (∀ v2, (⟨none, some ("w".data), none⟩ : EntryUpdates).value = some v2 → e'.value = v2)
        ∧ (e.updatedAt ≤ 6 → e.updatedAt ≤ e'.updatedAt)
        ∧ kb'.entries.length = 1)
    ∧ updateEntry ⟨[⟨"a".data, "k".data, "v".data, ["t".data], 1, 1⟩], 1, "1.0".data, false⟩
        ("zzz".data) ⟨none, some ("w".data), none⟩ 6 = .error .notFound :=
  have h := updateEntry_spec
    ⟨[⟨"a".data, "k".data, "v".data, ["t".data], 1, 1⟩], 1, "1.0".data, false⟩
    ("a".data) ⟨none, some ("w".data), none⟩ 6 (fun _ => .missing)
  have h2 := updateEntry_spec
    ⟨[⟨"a".data, "k".data, "v".data, ["t".data], 1, 1⟩], 1, "1.0".data, false⟩
    ("zzz".data) ⟨none, some ("w".data), none⟩ 6 (fun _ => .missing)
  ⟨h.1, (h2.2 (by decide)).1⟩

/-- An entry whose key and value are non-empty and not whitespace-only
(equivalently: each contains a non-whitespace character). -/
def EntryValid (e : KnowledgeEntry) : Prop :=
  (∃ c ∈ e.key, isWsChar c = false) ∧ (∃ c ∈ e.value, isWsChar c = false)

/-- The §3 invariant of the specification: ids are pairwise distinct and
every persisted key/value is non-empty and not whitespace-only. -/
def StoreInvariant (kb : KBDoc) : Prop :=
  kb.entries.Pairwise (fun a b => a.id ≠ b.id) ∧ ∀ e ∈ kb.entries, EntryValid e

/-- C9 counterexample: at the Store's own interface, createEntry accepts
a whitespace-only key and persists (saves) a document containing an entry
whose key is the empty string, violating the invariant — the store
performs no validation of its own; only the HTTP layer does. -/
theorem store_invariant_counterexample :
    (createEntry (emptyKB 0) ("id1".data) ("  ".data) ("v".data) [] 0).2.key = []
    ∧ (createEntry (emptyKB 0) ("id1".data) ("  ".data) ("v".data) [] 0).2
        ∈ (createEntry (emptyKB 0) ("id1".data) ("  ".data) ("v".data) [] 0).1.entries
    ∧ hasSave (createEntryOp (fun _ => .jsonDoc (emptyKB 0)) 0 ("id1".data)
        ("  ".data) ("v".data) []).2 = true
    ∧ ¬ StoreInvariant (createEntry (emptyKB 0) ("id1".data) ("  ".data) ("v".data) [] 0).1 := by
  refine ⟨by decide, by decide, by decide, ?_⟩
  intro hinv
  rcases hinv.2 _ (by decide :
    (⟨"id1".data, [], "v".data, [], 0, 0⟩ : KnowledgeEntry)
      ∈ (createEntry (emptyKB 0) ("id1".data) ("  ".data) ("v".data) [] 0).1.entries)
    with ⟨⟨c, hc, _⟩, _⟩
  cases hc

theorem mem_dropWhile_of_neg {p : Char → Bool} {c : Char} {l : List Char}
    (hc : c ∈ l) (hp : p c = false) : c ∈ l.dropWhile p := by
  induction l with
  | nil => cases hc
  | cons x xs ih =>
    cases hx : p x with
    | true =>
      have hcx : c ∈ xs := by
        rcases List.mem_cons.mp hc with rfl | h
        · rw [hp] at hx; cases hx
        · exact h
      simpa [List.dropWhile_cons, hx] using ih hcx
    | false => simpa [List.dropWhile_cons, hx] using hc

theorem mem_trim_of_not_ws {c : Char} {s : Str} (hc : c ∈ s)
    (hp : isWsChar c = false) : c ∈ trim s := by
  rw [trim]
  exact List.mem_reverse.mpr
    (mem_dropWhile_of_neg (List.mem_reverse.mpr (mem_dropWhile_of_neg hc hp)) hp)

theorem updateEntries_map_id (l : List KnowledgeEntry) (id : Str) (u : EntryUpdates)
    (now : Nat) (l' : List KnowledgeEntry) (e' : KnowledgeEntry)
    (h : updateEntries l id u now = some (l', e')) :
    l'.map (fun e => e.id) = l.map (fun e => e.id) := by
  induction l generalizing l' e' with
  | nil => simp [updateEntries] at h
  | cons x xs ih =>
    by_cases hx : x.id = id
    · rw [updateEntries, if_pos hx] at h
      have h1 : applyUpdates x u now :: xs = l' := congrArg Prod.fst (Option.some.inj h)
      rw [← h1]
      simp [applyUpdates]
    · rw [updateEntries, if_neg hx] at h
      cases hrec : updateEntries xs id u now with
      | none => rw [hrec] at h; cases h
      | some p =>
        rcases p with ⟨rest', upd⟩
        rw [hrec] at h
        have h1 : x :: rest' = l' := congrArg Prod.fst (Option.some.inj h)
        rw [← h1]
        simp only [List.map_cons]
        rw [ih rest' upd hrec]

theorem updateEntries_mem (l : List KnowledgeEntry) (id : Str) (u : EntryUpdates)
    (now : Nat) (l' : List KnowledgeEntry) (e' : KnowledgeEntry)
    (h : updateEntries l id u now = some (l', e')) :
    ∀ y ∈ l', y ∈ l ∨ y = e' := by
  induction l generalizing l' e' with
  | nil => simp [updateEntries] at h
  | cons x xs ih =>
    intro y hy
    by_cases hx : x.id = id
    · rw [updateEntries, if_pos hx] at h
      have h1 : applyUpdates x u now :: xs = l' := congrArg Prod.fst (Option.some.inj h)
      have h2 : applyUpdates x u now = e' := congrArg Prod.snd (Option.some.inj h)
      rw [← h1] at hy
      rcases List.mem_cons.mp hy with rfl | hmem
      · exact Or.inr h2
      · exact Or.inl (List.mem_cons_of_mem x hmem)
    · rw [updateEntries, if_neg hx] at h
      cases hrec : updateEntries xs id u now with
      | none => rw [hrec] at h; cases h
      | some p =>
        rcases p with ⟨rest', upd⟩
        rw [hrec] at h
        have h1 : x :: rest' = l' := congrArg Prod.fst (Option.some.inj h)
        have h2 : upd = e' := congrArg Prod.snd (Option.some.inj h)
        rw [← h1] at hy
        rcases List.mem_cons.mp hy with rfl | hmem
        · exact Or.inl (List.mem_cons_self _ _)
        · rcases ih rest' upd hrec y hmem with hin | heq
          · exact Or.inl (List.mem_cons_of_mem x hin)
          · exact Or.inr (heq.trans h2)

theorem removeEntry_sublist (l : List KnowledgeEntry) (id : Str)
    (l' : List KnowledgeEntry) (d : KnowledgeEntry)
    (h : removeEntry l id = some (l', d)) : l'.Sublist l := by
  induction l generalizing l' d with
  | nil => simp [removeEntry] at h
  | cons x xs ih =>
    by_cases hx : x.id = id
    · rw [removeEntry, if_pos hx] at h
      have h1 : xs = l' := congrArg Prod.fst (Option.some.inj h)
      rw [← h1]
      exact List.Sublist.cons x (List.Sublist.refl xs)
    · rw [removeEntry, if_neg hx] at h
      cases hrec : removeEntry xs id with
      | none => rw [hrec] at h; cases h
      | some p =>
        rcases p with ⟨rest', d'⟩
        rw [hrec] at h
        have h1 : x :: rest' = l' := congrArg Prod.fst (Option.some.inj h)
        rw [← h1]
        exact List.Sublist.cons₂ x (ih rest' d' hrec)

/-- C9 (amended): the Store itself validates nothing, so the invariant
(unique ids, non-blank keys and values) is preserved only under the
preconditions its callers establish: create with a fresh id and a key and
value containing some non-whitespace character, update whose provided
key/value fields contain some non-whitespace character, and delete, each
carry an invariant-satisfying document to an invariant-satisfying
document. -/
theorem store_invariant_preservation (kb : KBDoc) (newId key value : Str)
    (tags : List Str) (id : Str) (u : EntryUpdates) (now : Nat)
    (hinv : StoreInvariant kb) :
    ((∃ c ∈ key, isWsChar c = false) → (∃ c ∈ value, isWsChar c = false) →
      (∀ e ∈ kb.entries, e.id ≠ newId) →
      StoreInvariant (createEntry kb newId key value tags now).1)
    ∧ ((∀ k, u.key = some k → ∃ c ∈ k, isWsChar c = false) →
       (∀ v, u.value = some v → ∃ c ∈ v, isWsChar c = false) →
       ∀ kb' e', updateEntry kb id u now = .ok (kb', e') → StoreInvariant kb')
    ∧ (∀ kb' e', deleteEntry kb id now = .ok (kb', e') → StoreInvariant kb') := by
  obtain ⟨hpw, hval⟩ := hinv
  refine ⟨?_, ?_, ?_⟩
  · intro hkey hvalue hfresh
    have hent : (createEntry kb newId key value tags now).1.entries
        = kb.entries ++ [⟨newId, trim key, trim value, tags, now, now⟩] := rfl
    rw [StoreInvariant, hent]
    constructor
    · apply List.pairwise_append.mpr
      refine ⟨hpw, List.pairwise_singleton _ _, ?_⟩
      intro a ha b hb
      rw [List.mem_singleton.mp hb]
      exact hfresh a ha
    · intro e he
      rcases List.mem_append.mp he with hmem | hnew
      · exact hval e hmem
      · rw [List.mem_singleton.mp hnew]
        constructor
        · rcases hkey with ⟨c, hc, hw⟩
          exact ⟨c, mem_trim_of_not_ws hc hw, hw⟩
        · rcases hvalue with ⟨c, hc, hw⟩
          exact ⟨c, mem_trim_of_not_ws hc hw, hw⟩
  · intro hukey huvalue kb' e' h
    rw [updateEntry] at h
    cases hup : updateEntries kb.entries id u now with
    | none => rw [hup] at h; cases h
    | some p =>
      rcases p with ⟨l, e2⟩
      rw [hup] at h
      have h1 : { kb with entries := l, lastUpdated := now } = kb'
        := congrArg Prod.fst (Except.ok.inj h)
      have hent : kb'.entries = l := by rw [← h1]
      rcases updateEntries_ok kb.entries id u now l e2 hup with ⟨e, hmem, _, heq, _⟩
      rw [StoreInvariant, hent]
      constructor
      · have hmap := updateEntries_map_id kb.entries id u now l e2 hup
        have hl : (l.map (fun e => e.id)).Pairwise (fun a b => a ≠ b) := by
          rw [hmap]
          exact List.pairwise_map.mpr hpw
        exact List.pairwise_map.mp hl
      · intro y hy
        rcases updateEntries_mem kb.entries id u now l e2 hup y hy with hin | rfl
        · exact hval y hin
        · rw [heq]
          constructor
          · cases hk : u.key with
            | none =>
              have := (hval e hmem).1
              simpa [applyUpdates, hk] using this
            | some k =>
              have := hukey k hk
              simpa [applyUpdates, hk] using this
          · cases hv : u.value with
            | none =>
              have := (hval e hmem).2
              simpa [applyUpdates, hv] using this
            | some v =>
              have := huvalue v hv
              simpa [applyUpdates, hv] using this
  · intro kb' e' h
    rw [deleteEntry] at h
    cases hrm : removeEntry kb.entries id with
    | none => rw [hrm] at h; cases h
    | some p =>
      rcases p with ⟨l, d⟩
      rw [hrm] at h
      have h1 : { kb with entries := l, lastUpdated := now } = kb'
        := congrArg Prod.fst (Except.ok.inj h)
      have hent : kb'.entries = l := by rw [← h1]
      have hsub := removeEntry_sublist kb.entries id l d hrm
      rw [StoreInvariant, hent]
      constructor
      · exact List.Pairwise.sublist hsub hpw
      · intro y hy
        exact hval y (hsub.subset hy)

/-- Witness for the amended C9: creating a valid entry in the empty store
preserves the invariant. -/
theorem store_invariant_preservation_witness :
    StoreInvariant (emptyKB 0)
    ∧ StoreInvariant (createEntry (emptyKB 0) ("a".data) ("k".data) ("v".data) [] 2).1 :=
  have hinv : StoreInvariant (emptyKB 0) := ⟨List.Pairwise.nil, by simp [emptyKB]⟩
  ⟨hinv,
   (store_invariant_preservation (emptyKB 0) ("a".data) ("k".data) ("v".data) []
      ("x".data) ⟨none, none, none⟩ 2 hinv).1
     (by decide) (by decide) (by simp [emptyKB])⟩

end CustomAI
